import Mathlib

/-!
Shallow embedding of urlwatch's job model (lib/urlwatch/jobs.py) and proofs
about its serialization protocol, kind auto-detection, construction
validation, GUID derivation, HTTP retrieval logic and async job lifecycle.

Python dictionaries are modelled as association lists with unique keys in
insertion order: `dictSet` mirrors `d[k] = v` (update the existing entry in
place, append if the key is new), `dictPop` mirrors `d.pop(k, None)` on a
dict (every entry carrying the key is removed; on a dict there is at most
one), `dictGet` mirrors `d.get(k)` and `containsKey` mirrors `k in d`.
-/

def dictGet {α : Type} : List (String × α) → String → Option α
  | [], _ => none
  | p :: rest, k => if p.1 = k then some p.2 else dictGet rest k

def containsKey {α : Type} (d : List (String × α)) (k : String) : Bool :=
  (dictGet d k).isSome

def dictSet {α : Type} : List (String × α) → String → α → List (String × α)
  | [], k, v => [(k, v)]
  | p :: rest, k, v => if p.1 = k then (k, v) :: rest else p :: dictSet rest k v

def dictPop {α : Type} : List (String × α) → String → List (String × α)
  | [], _ => []
  | p :: rest, k => if p.1 = k then dictPop rest k else p :: dictPop rest k

def dictKeys {α : Type} (d : List (String × α)) : List String :=
  d.map (fun p => p.1)

/-!
Job model. `PV` is the universe of scalar record values appearing in job
list records; `PV.null` models Python's None (the "absent marker" stored on
unset optional fields). A `Kind` is the static descriptor of a registered
job class: its tag (the class attribute holding the kind name), its
required and optional field-name tuples as declared on the class in
jobs.py, and the name of the attribute its get_location method returns.
A `Job` is a constructed instance: its class's tag plus its attribute
dictionary (setattr/getattr are dictSet/dictGet).
-/
inductive PV where
  | null
  | str (s : String)
  | int (n : Int)
  | bool (b : Bool)
deriving DecidableEq

structure Kind where
  tag : String
  required : List String
  optional : List String
  loc_attr : String
deriving DecidableEq

structure Job where
  kind : String
  attrs : List (String × PV)
deriving DecidableEq

def getAttr (j : Job) (f : String) : Option PV :=
  dictGet j.attrs f

inductive InitError where
  | missingRequired (field : String) (kwargs : List (String × PV))
deriving DecidableEq

/-- The message of the ValueError raised by JobBase.__init__ on a missing
required field: 'Required field %s missing: %r' % (k, kwargs). The %r of
the kwargs dict is rendered by pyReprDict below. -/
def pyReprPV : PV → String
  | .null => "None"
  | .str s => "\x27" ++ s ++ "\x27"
  | .int n => toString n
  | .bool true => "True"
  | .bool false => "False"

def pyReprDict (d : List (String × PV)) : String :=
  "\x7b" ++ String.intercalate ", "
    (d.map (fun p => "\x27" ++ p.1 ++ "\x27: " ++ pyReprPV p.2)) ++ "\x7d"

def missingFieldMessage : InitError → String
  | .missingRequired f kw => "Required field " ++ f ++ " missing: " ++ pyReprDict kw

/-- JobBase.__init__: set every optional key missing from kwargs to None,
fail on the first required key missing from kwargs, then set all kwargs. -/
def initJob (k : Kind) (kwargs : List (String × PV)) : Except InitError Job :=
  let a0 := k.optional.foldl
    (fun a o => if containsKey kwargs o then a else dictSet a o PV.null) []
  match k.required.find? (fun r => !(containsKey kwargs r)) with
  | some r => .error (.missingRequired r kwargs)
  | none => .ok { kind := k.tag, attrs := kwargs.foldl (fun a p => dictSet a p.1 p.2) a0 }

/-- JobBase.to_dict: the non-None values of the declared (required then
optional) fields. -/
def to_dict (k : Kind) (j : Job) : List (String × PV) :=
  (k.required ++ k.optional).filterMap (fun f =>
    match getAttr j f with
    | some v => if v = PV.null then none else some (f, v)
    | none => none)

/-- JobBase.serialize: a dict holding the kind tag, updated with to_dict. -/
def serialize (k : Kind) (j : Job) : List (String × PV) :=
  (to_dict k j).foldl (fun d p => dictSet d p.1 p.2) [("kind", PV.str k.tag)]

/-- The auto-detection condition of JobBase.unserialize: all required keys
of the subclass occur in the record, and no record key is foreign to the
subclass (neither required nor optional). -/
def kindMatches (k : Kind) (data : List (String × PV)) : Bool :=
  k.required.all (fun r => containsKey data r) &&
    !(data.any (fun p => !(k.required.contains p.1) && !(k.optional.contains p.1)))

def autoMatchTags (reg : List Kind) (data : List (String × PV)) : List String :=
  (reg.filter (fun k => kindMatches k data)).map (fun k => k.tag)

inductive UnserializeError where
  | noMatch (data : List (String × PV))
  | ambiguousKinds (data : List (String × PV)) (tags : List String)
  | unknownKind (kindValue : PV)
  | construction (e : InitError)
deriving DecidableEq

/-- Lookup in the cls.__subclasses__ registry (a dict tag -> class, in
registration order; a list here since we only read it). -/
def subclassLookup (reg : List Kind) (t : String) : Option Kind :=
  reg.find? (fun k => k.tag == t)

/-- JobBase.from_dict: construct from the record restricted to the keys the
class declares as required or optional. -/
def from_dict_filter (k : Kind) (data : List (String × PV)) : List (String × PV) :=
  data.filter (fun p => k.required.contains p.1 || k.optional.contains p.1)

def from_dict (k : Kind) (data : List (String × PV)) : Except InitError Job :=
  initJob k (from_dict_filter k data)

def unserializeAs (reg : List Kind) (t : String) (data : List (String × PV)) :
    Except UnserializeError Job :=
  match subclassLookup reg t with
  | none => .error (.unknownKind (PV.str t))
  | some k =>
    match from_dict k data with
    | .ok j => .ok j
    | .error e => .error (.construction e)

/-- JobBase.unserialize: explicit kind when the record has one, otherwise
auto-detect; exactly one match proceeds, zero or several fail. -/
def unserialize (reg : List Kind) (data : List (String × PV)) :
    Except UnserializeError Job :=
  match dictGet data "kind" with
  | none =>
    match autoMatchTags reg data with
    | [] => .error (.noMatch data)
    | [t] => unserializeAs reg t data
    | ts => .error (.ambiguousKinds data ts)
  | some (PV.str t) => unserializeAs reg t data
  | some v => .error (.unknownKind v)

/-!
The concrete registry of jobs.py: ShellJob, UrlJob, BrowserJob, with the
required/optional tuples declared on each class and the attribute each
class's get_location returns. (The TrackSubClasses metaclass lives in
lib/urlwatch/util.py, outside the sources at hand; the field tuples below
are the per-class declarations of jobs.py, and every claim about the
protocol is proved for an arbitrary registry, so no claim depends on how
the metaclass combines inherited tuples.)
-/
def shellKind : Kind :=
  { tag := "shell", required := ["command"], optional := [], loc_attr := "command" }

def urlKind : Kind :=
  { tag := "url", required := ["url"],
    optional := ["cookies", "data", "method", "ssl_no_verify", "ignore_cached",
                 "http_proxy", "https_proxy", "headers", "ignore_connection_errors"],
    loc_attr := "url" }

def browserKind : Kind :=
  { tag := "browser", required := ["navigate"], optional := [], loc_attr := "navigate" }

def jobsRegistry : List Kind := [shellKind, urlKind, browserKind]

/-- Well-formedness of a kind descriptor: the declared field names are
pairwise distinct and none of them is the reserved record key "kind". -/
def KindWF (k : Kind) : Prop :=
  (k.required ++ k.optional).Nodup ∧ "kind" ∉ k.required ∧ "kind" ∉ k.optional

instance (k : Kind) : Decidable (KindWF k) := by
  unfold KindWF
  infer_instance

def RegWF (reg : List Kind) : Prop :=
  (reg.map (fun k => k.tag)).Nodup ∧ ∀ k ∈ reg, KindWF k

instance (reg : List Kind) : Decidable (RegWF reg) := by
  unfold RegWF
  exact instDecidableAnd

/-- A valid job of a registered kind: the instance is of that class, every
declared field attribute exists (construction guarantees this), required
fields are populated (not the absent marker), and only declared fields are
stored (the data-model invariant of a job instance). -/
def JobValid (k : Kind) (j : Job) : Prop :=
  j.kind = k.tag ∧
  (∀ r ∈ k.required, ∃ v, getAttr j r = some v ∧ v ≠ PV.null) ∧
  (∀ o ∈ k.optional, (getAttr j o).isSome) ∧
  (∀ p ∈ j.attrs, p.1 ∈ k.required ∨ p.1 ∈ k.optional)

instance (k : Kind) (j : Job) : Decidable (JobValid k j) := by
  unfold JobValid
  infer_instance

/-- The attribute dictionary produced by a successful JobBase.__init__ call:
missing optionals set to None first, then all kwargs applied. -/
def initAttrs (k : Kind) (kwargs : List (String × PV)) : List (String × PV) :=
  kwargs.foldl (fun a p => dictSet a p.1 p.2)
    (k.optional.foldl
      (fun a o => if containsKey kwargs o then a else dictSet a o PV.null) [])

def dataC2 : List (String × PV) := [("command", PV.str "uptime")]

def jW1 : Job := Job.mk "shell" [("command", PV.str "date")]

def dataC9 : List (String × PV) :=
  [("kind", PV.str "shell"), ("command", PV.str "ls"), ("extra", PV.str "x")]

def jC9 : Job := Job.mk "shell" [("command", PV.str "ls")]

def kwargsC9 : List (String × PV) := [("command", PV.str "ls"), ("extra", PV.str "x")]

def jC9b : Job := Job.mk "shell" [("command", PV.str "ls"), ("extra", PV.str "x")]

/-- The message text mentions a fragment: the fragment's characters occur
contiguously in the message. -/
def strMentions (s pat : String) : Prop :=
  pat.data <:+: s.data

instance (s pat : String) : Decidable (strMentions s pat) := by
  unfold strMentions
  infer_instance

/-!
UrlJob request headers. A header dict maps header names to values; a
Python None value (used by the code to suppress a conditional header) is
modelled as Option.none on the value side.
-/
/-- ASCII lowercasing of a character, as str.lower() acts on the header
names the code compares (they are ASCII). -/
def lowerChar (c : Char) : Char :=
  if 65 ≤ c.toNat ∧ c.toNat ≤ 90 then Char.ofNat (c.toNat + 32) else c

def lowerStr (s : String) : String :=
  String.mk (s.data.map lowerChar)

def listIsPrefixOfB : List Char → List Char → Bool
  | [], _ => true
  | _ :: _, [] => false
  | a :: as, b :: bs => a == b && listIsPrefixOfB as bs

/-- str.startswith, and the anchoring of re.match at the string start. -/
def strStartsWith (s pre : String) : Bool :=
  listIsPrefixOfB pre.data s.data

/-- Python string slicing s[n:] (by characters). -/
def dropChars (s : String) (n : Nat) : String :=
  String.mk (s.data.drop n)

/-- UrlJob.add_custom_headers: pre-filled headers whose name matches a
custom header name case-insensitively are removed, then the dict is
updated with the custom headers (custom values are plain strings). -/
def add_custom_headers (headers : List (String × Option String))
    (custom : List (String × String)) : List (String × Option String) :=
  custom.foldl (fun h p => dictSet h p.1 (some p.2))
    (((dictKeys headers).filter
      (fun x => (custom.map (fun y => lowerStr y.1)).contains (lowerStr x))).foldl
        (fun h x => dictPop h x) headers)

def baseHeadersW : List (String × Option String) :=
  [("User-agent", some "urlwatch"), ("Content-Type", some "application/x-www-form-urlencoded")]

def customHeadersW : List (String × String) := [("content-type", "text/plain")]

/-!
AsyncJob / BrowserJob lifecycle. The attached asyncio event loop is
modelled by whether it has been set (self.loop is None until setup) and
whether it is currently running.
-/
structure EventLoop where
  is_running : Bool
deriving DecidableEq

/-- AsyncJob.__init__ leaves self.loop = None. -/
def asyncJobInitialLoop : Option EventLoop := none

/-- AsyncJob.setup stores the given event loop on the job. -/
def asyncSetup (loop : EventLoop) : Option EventLoop := some loop

/-- AsyncJob.retrieve: the guard run before scheduling coroutines on the
loop; raises RuntimeError (modelled as the error message) unless the loop
is set and running. -/
def asyncRetrieveCheck (loop : Option EventLoop) : Except String Unit :=
  match loop with
  | none => .error "Event loop not set up"
  | some lp =>
    if !lp.is_running then
      .error "The event loop must be running when `retrieve` is called on an AsyncJob"
    else
      .ok ()

/-- AsyncJob.cleanup: raises RuntimeError unless setup was called and the
loop has already stopped. -/
def asyncCleanupCheck (loop : Option EventLoop) : Except String Unit :=
  match loop with
  | none => .error "`setup` must be called before `cleanup`"
  | some lp =>
    if lp.is_running then
      .error "The event loop should have stopped before `cleanup` is called"
    else
      .ok ()

/-- The document rendered by the shared browser for a navigate URL; the
content comes from the external browser process, abstracted as a function
of the URL. -/
def renderResult (navigate : String) : String := navigate

/-- BrowserJob.retrieve: run the AsyncJob guard (super().retrieve), then
submit the render coroutine to the loop and wait for its result. -/
def browserRetrieve (loop : Option EventLoop) (navigate : String) : Except String String :=
  match asyncRetrieveCheck loop with
  | .error e => .error e
  | .ok _ => .ok (renderResult navigate)

/-!
UrlJob.retrieve. The HTTP library's response is an input of the model: its
status code, headers (requests exposes them case-insensitively), raw body
bytes (Fin 256) and the text the library itself would produce when a
charset is declared. raise_for_status raises exactly on 4xx/5xx statuses.
-/
/-- Strict UTF-8 decoding of a byte sequence (Python bytes.decode('utf-8')):
rejects truncated sequences, continuation-byte starts, overlong forms,
surrogates and code points above U+10FFFF. -/
def utf8DecodeAux : List (Fin 256) → Option (List Char)
  | [] => some []
  | b :: rest =>
    if b.val < 0x80 then
      (utf8DecodeAux rest).map (fun cs => Char.ofNat b.val :: cs)
    else if b.val < 0xC2 then
      none
    else if b.val < 0xE0 then
      match rest with
      | c1 :: rest2 =>
        if 0x80 ≤ c1.val ∧ c1.val < 0xC0 then
          (utf8DecodeAux rest2).map
            (fun cs => Char.ofNat ((b.val - 0xC0) * 0x40 + (c1.val - 0x80)) :: cs)
        else none
      | [] => none
    else if b.val < 0xF0 then
      match rest with
      | c1 :: c2 :: rest3 =>
        if (0x80 ≤ c1.val ∧ c1.val < 0xC0) ∧ (0x80 ≤ c2.val ∧ c2.val < 0xC0) ∧
            0x800 ≤ (b.val - 0xE0) * 0x1000 + (c1.val - 0x80) * 0x40 + (c2.val - 0x80) ∧
            ((b.val - 0xE0) * 0x1000 + (c1.val - 0x80) * 0x40 + (c2.val - 0x80) < 0xD800 ∨
              0xE000 ≤ (b.val - 0xE0) * 0x1000 + (c1.val - 0x80) * 0x40 + (c2.val - 0x80)) then
          (utf8DecodeAux rest3).map
            (fun cs =>
              Char.ofNat ((b.val - 0xE0) * 0x1000 + (c1.val - 0x80) * 0x40 + (c2.val - 0x80)) :: cs)
        else none
      | _ => none
    else if b.val < 0xF5 then
      match rest with
      | c1 :: c2 :: c3 :: rest4 =>
        if (0x80 ≤ c1.val ∧ c1.val < 0xC0) ∧ (0x80 ≤ c2.val ∧ c2.val < 0xC0) ∧
            (0x80 ≤ c3.val ∧ c3.val < 0xC0) ∧
            0x10000 ≤ (b.val - 0xF0) * 0x40000 + (c1.val - 0x80) * 0x1000 +
              (c2.val - 0x80) * 0x40 + (c3.val - 0x80) ∧
            (b.val - 0xF0) * 0x40000 + (c1.val - 0x80) * 0x1000 +
              (c2.val - 0x80) * 0x40 + (c3.val - 0x80) ≤ 0x10FFFF then
          (utf8DecodeAux rest4).map
            (fun cs =>
              Char.ofNat ((b.val - 0xF0) * 0x40000 + (c1.val - 0x80) * 0x1000 +
                (c2.val - 0x80) * 0x40 + (c3.val - 0x80)) :: cs)
        else none
      | _ => none
    else none

def utf8Decode (b : List (Fin 256)) : Option String :=
  (utf8DecodeAux b).map (fun cs => String.mk cs)

/-- Python bytes.decode('latin1'): every byte 0..255 maps to the code
point of the same value, so this decode is total and never raises; it is
kept Option-valued to mirror its position in the nested except chain. -/
def latin1Decode? (b : List (Fin 256)) : Option String :=
  some (String.mk (b.map (fun x => Char.ofNat x.val)))

/-- Python bytes.decode('utf-8', 'ignore'): like the strict decode but
dropping invalid bytes. This branch is dead code on the network path — the
Latin-1 fallback before it is total (proved with C5) — so the exact
skipping granularity is immaterial; invalid lead bytes are skipped one at
a time here. -/
def utf8DecodeIgnoreAux : List (Fin 256) → List Char
  | [] => []
  | b :: rest =>
    if b.val < 0x80 then
      Char.ofNat b.val :: utf8DecodeIgnoreAux rest
    else if b.val < 0xC2 then
      utf8DecodeIgnoreAux rest
    else if b.val < 0xE0 then
      match rest with
      | c1 :: rest2 =>
        if 0x80 ≤ c1.val ∧ c1.val < 0xC0 then
          Char.ofNat ((b.val - 0xC0) * 0x40 + (c1.val - 0x80)) :: utf8DecodeIgnoreAux rest2
        else utf8DecodeIgnoreAux (c1 :: rest2)
      | [] => []
    else
      utf8DecodeIgnoreAux rest
termination_by l => l.length
decreasing_by
  all_goals simp only [List.length_cons]
  all_goals omega

/-- The decode fallback chain of UrlJob.retrieve for a body without a
recognized text content type: strict UTF-8, then Latin-1 on a decode
error, then UTF-8 dropping invalid bytes; the final ascii fallback guards
a LookupError, which the literal codec names cannot raise, so it has no
trigger in the model. -/
def decodeBody (b : List (Fin 256)) : String :=
  match utf8Decode b with
  | some s => s
  | none =>
    match latin1Decode? b with
    | some s => s
    | none => String.mk (utf8DecodeIgnoreAux b)

/-- re.match of CHARSET_RE = 'text/(html|plain); charset=([^;]*)' against
the content type: a match exists exactly when the string starts with one
of the two literal prefixes, since the last group may be empty and
re.match does not anchor the end of the string. -/
def charsetDeclared (ct : String) : Bool :=
  strStartsWith ct "text/html; charset=" || strStartsWith ct "text/plain; charset="

/-- The external per-cycle cache state handed to retrieve: previous etag
and timestamp; retrieve may overwrite the etag. -/
structure JobState where
  etag : Option String
  timestamp : Option Nat
deriving DecidableEq

structure HttpResponse where
  status : Nat
  headers : List (String × String)
  content : List (Fin 256)
  text : String
deriving DecidableEq

/-- requests response headers are looked up case-insensitively. -/
def respHeaderGet (resp : HttpResponse) (name : String) : Option String :=
  (resp.headers.find? (fun p => lowerStr p.1 == lowerStr name)).map (fun p => p.2)

/-- The fields of a UrlJob instance used by retrieve. The custom headers
field is the dict self.headers ([] models both None and an empty dict,
which behave identically under the truthiness check); boolean-ish flags
are modelled as Bool (None and False are both falsy). -/
structure UrlJobModel where
  url : String
  data : Option String
  method : Option String
  ssl_no_verify : Bool
  ignore_cached : Bool
  http_proxy : Option String
  https_proxy : Option String
  headers_c : List (String × String)
  cookies : Option String
deriving DecidableEq

/-- email.utils.formatdate, abstracted as an injective rendering of the
epoch value; no claim inspects the concrete RFC 2822 text. -/
def formatdate (t : Nat) : String :=
  "epoch:" ++ toString t

/-- urlwatch.__user_agent__ (defined in the package root, outside jobs.py);
its concrete value is never inspected. -/
def userAgent : String := "urlwatch"

abbrev HeaderMap := List (String × Option String)

def applyETagHeader (st : JobState) (h : HeaderMap) : HeaderMap :=
  match st.etag with
  | some e => dictSet h "If-None-Match" (some e)
  | none => h

def applyIfModifiedSince (st : JobState) (h : HeaderMap) : HeaderMap :=
  match st.timestamp with
  | some t => dictSet h "If-Modified-Since" (some (formatdate t))
  | none => h

/-- The ignore_cached override: If-None-Match is set to None (suppressing
the header), If-Modified-Since to the epoch, plus cache-busting headers. -/
def applyIgnoreCached (j : UrlJobModel) (now : Nat) (h : HeaderMap) : HeaderMap :=
  if j.ignore_cached then
    dictSet (dictSet (dictSet (dictSet h "If-None-Match" none)
      "If-Modified-Since" (some (formatdate 0)))
      "Cache-Control" (some "max-age=172800"))
      "Expires" (some (formatdate now))
  else h

/-- A request body switches the method to POST and sets the form content
type. -/
def applyContentType (j : UrlJobModel) (h : HeaderMap) : HeaderMap :=
  if j.data.isSome then
    dictSet h "Content-type" (some "application/x-www-form-urlencoded")
  else h

def applyCustomHeaders (j : UrlJobModel) (h : HeaderMap) : HeaderMap :=
  if j.headers_c ≠ [] then add_custom_headers h j.headers_c else h

/-- The request headers UrlJob.retrieve emits, assembled in the order of
the code: base user agent, conditional-fetch headers from the job state,
the ignore_cached override, the POST content type, then custom headers. -/
def buildRequestHeaders (j : UrlJobModel) (st : JobState) (now : Nat) : HeaderMap :=
  applyCustomHeaders j (applyContentType j (applyIgnoreCached j now
    (applyIfModifiedSince st (applyETagHeader st [("User-agent", some userAgent)]))))

/-- if self.method is None: GET; a request body forces POST. -/
def resolvedMethod (j : UrlJobModel) : String :=
  if j.data.isSome then "POST" else j.method.getD "GET"

inductive RetrieveError where
  | httpStatus (code : Nat)
  | notModified
deriving DecidableEq

inductive RetrieveOutcome where
  | fileRead (path : String)
  | net (content : String) (st : JobState)
deriving DecidableEq

/-- UrlJob.retrieve applied to the library's response: file:// URLs bypass
the network entirely; otherwise raise_for_status raises the HTTP-status
error exactly on 4xx/5xx, a 304 raises NotModifiedError before any state
write, and any other response overwrites job_state.etag with the ETag
header and returns the decoded body (response.text under a declared text
charset, the fallback chain otherwise). -/
def urlRetrieve (j : UrlJobModel) (st : JobState) (resp : HttpResponse) :
    Except RetrieveError RetrieveOutcome :=
  if strStartsWith j.url "file://" then
    .ok (.fileRead (dropChars j.url 7))
  else if 400 ≤ resp.status ∧ resp.status < 600 then
    .error (.httpStatus resp.status)
  else if resp.status = 304 then
    .error .notModified
  else if charsetDeclared ((respHeaderGet resp "Content-type").getD "") then
    .ok (.net resp.text { st with etag := respHeaderGet resp "ETag" })
  else
    .ok (.net (decodeBody resp.content) { st with etag := respHeaderGet resp "ETag" })

def jC4 : UrlJobModel :=
  { url := "http://example.org", data := none, method := none, ssl_no_verify := false,
    ignore_cached := false, http_proxy := none, https_proxy := none, headers_c := [],
    cookies := none }

def respC4ok : HttpResponse :=
  { status := 200, headers := [("ETag", "W-abc")], content := [], text := "" }

def respC4nm : HttpResponse :=
  { status := 304, headers := [], content := [], text := "" }

def respC4err : HttpResponse :=
  { status := 404, headers := [], content := [], text := "" }

def jC5 : UrlJobModel :=
  { url := "http://example.com", data := none, method := none, ssl_no_verify := false,
    ignore_cached := false, http_proxy := none, https_proxy := none, headers_c := [],
    cookies := none }

def respC5 : HttpResponse :=
  { status := 200, headers := [], content := [(255 : Fin 256)], text := "" }

def jC10 : UrlJobModel :=
  { url := "http://example.net", data := none, method := none, ssl_no_verify := false,
    ignore_cached := false, http_proxy := none, https_proxy := none, headers_c := [],
    cookies := none }

def respC10 : HttpResponse :=
  { status := 200, headers := [("Content-Length", "0")], content := [], text := "" }

def stC10 : JobState := JobState.mk (some "previous-etag") (some 5)

/-!
JobBase.get_guid: the hexdigest of SHA-1 over the UTF-8 encoding of the
job's location. SHA-1 is implemented in full on byte lists; the digest is
the 160-bit big-endian value of the five state words, formatted as 40
lowercase hex digits exactly as hexdigest() renders the 20-byte digest.
-/
def utf8EncodeChar (c : Char) : List Nat :=
  if c.toNat < 0x80 then [c.toNat]
  else if c.toNat < 0x800 then
    [0xC0 + c.toNat / 0x40, 0x80 + c.toNat % 0x40]
  else if c.toNat < 0x10000 then
    [0xE0 + c.toNat / 0x1000, 0x80 + (c.toNat / 0x40) % 0x40, 0x80 + c.toNat % 0x40]
  else
    [0xF0 + c.toNat / 0x40000, 0x80 + (c.toNat / 0x1000) % 0x40,
      0x80 + (c.toNat / 0x40) % 0x40, 0x80 + c.toNat % 0x40]

def utf8Encode (s : String) : List Nat :=
  s.data.foldr (fun c acc => utf8EncodeChar c ++ acc) []

def M32 : Nat := 4294967296

def rotl (k n : Nat) : Nat :=
  ((n * 2 ^ k) % M32) ||| (n / 2 ^ (32 - k))

def sha1K (i : Nat) : Nat :=
  if i < 20 then 0x5A827999
  else if i < 40 then 0x6ED9EBA1
  else if i < 60 then 0x8F1BBCDC
  else 0xCA62C1D6

def sha1F (i b c d : Nat) : Nat :=
  if i < 20 then (b &&& c) ||| ((0xFFFFFFFF ^^^ b) &&& d)
  else if i < 40 then b ^^^ c ^^^ d
  else if i < 60 then (b &&& c) ||| (b &&& d) ||| (c &&& d)
  else b ^^^ c ^^^ d

structure H5 where
  a : Nat
  b : Nat
  c : Nat
  d : Nat
  e : Nat
deriving DecidableEq

def sha1InitH : H5 := H5.mk 0x67452301 0xEFCDAB89 0x98BADCFE 0x10325476 0xC3D2E1F0

/-- The 16 words of a 64-byte block, big-endian. -/
def sha1Words (block : List Nat) : List Nat :=
  (List.range 16).map (fun i =>
    block.getD (4 * i) 0 * 0x1000000 + block.getD (4 * i + 1) 0 * 0x10000 +
      block.getD (4 * i + 2) 0 * 0x100 + block.getD (4 * i + 3) 0)

/-- Extension of the 16 block words to 80, built newest-first: the next
word is rotl1 of w[t-3] xor w[t-8] xor w[t-14] xor w[t-16]. -/
def sha1ExtendRev (ws : List Nat) : List Nat :=
  (List.range 64).foldl
    (fun acc _ =>
      rotl 1 (acc.getD 2 0 ^^^ acc.getD 7 0 ^^^ acc.getD 13 0 ^^^ acc.getD 15 0) :: acc)
    ws.reverse

def sha1Schedule (block : List Nat) : List Nat :=
  (sha1ExtendRev (sha1Words block)).reverse

def sha1Round (w : List Nat) (st : H5) (i : Nat) : H5 :=
  H5.mk ((rotl 5 st.a + sha1F i st.b st.c st.d + st.e + sha1K i + w.getD i 0) % M32)
    st.a (rotl 30 st.b) st.c st.d

def sha1Final (h fin : H5) : H5 :=
  H5.mk ((h.a + fin.a) % M32) ((h.b + fin.b) % M32) ((h.c + fin.c) % M32)
    ((h.d + fin.d) % M32) ((h.e + fin.e) % M32)

def sha1Compress (h : H5) (block : List Nat) : H5 :=
  sha1Final h ((List.range 80).foldl (sha1Round (sha1Schedule block)) h)

/-- Merkle-Damgard padding: 0x80, zeros to 56 mod 64, then the bit length
as 8 big-endian bytes. -/
def sha1Pad (msg : List Nat) : List Nat :=
  msg ++ [0x80] ++ List.replicate ((120 - (msg.length + 1) % 64) % 64) 0 ++
    [msg.length * 8 / 2 ^ 56 % 256, msg.length * 8 / 2 ^ 48 % 256,
     msg.length * 8 / 2 ^ 40 % 256, msg.length * 8 / 2 ^ 32 % 256,
     msg.length * 8 / 2 ^ 24 % 256, msg.length * 8 / 2 ^ 16 % 256,
     msg.length * 8 / 2 ^ 8 % 256, msg.length * 8 % 256]

/-- Iterate the compression over 64-byte blocks; the fuel bounds the
number of iterations and is instantiated with the padded length, which is
ample since every step consumes 64 bytes. -/
def sha1Blocks : Nat → H5 → List Nat → H5
  | 0, h, _ => h
  | _ + 1, h, [] => h
  | fuel + 1, h, msg => sha1Blocks fuel (sha1Compress h (msg.take 64)) (msg.drop 64)

def sha1Hs (msg : List Nat) : H5 :=
  sha1Blocks (sha1Pad msg).length sha1InitH (sha1Pad msg)

/-- The digest value: the five 32-bit words big-endian, i.e. the 20 digest
bytes read as one 160-bit number. -/
def sha1DigestNat (msg : List Nat) : Nat :=
  match sha1Hs msg with
  | H5.mk a b c d e => (((a * M32 + b) * M32 + c) * M32 + d) * M32 + e

def hexDigitChar (n : Nat) : Char :=
  if n < 10 then Char.ofNat (48 + n) else Char.ofNat (87 + n)

def hexDigitsLE : Nat → Nat → List Char
  | 0, _ => []
  | w + 1, n => hexDigitChar (n % 16) :: hexDigitsLE w (n / 16)

/-- n as exactly w lowercase hex digits, big-endian with leading zeros —
the hexdigest() rendering. -/
def natToHexPad (w n : Nat) : String :=
  String.mk (hexDigitsLE w n).reverse

def sha1Hex (msg : List Nat) : String :=
  natToHexPad 40 (sha1DigestNat msg)

/-- JobBase.get_guid for a location string: the SHA-1 hexdigest of its
UTF-8 encoding. -/
def guidOfLocation (location : String) : String :=
  sha1Hex (utf8Encode location)

/-- JobBase.get_location dispatched through the registry: each kind
returns its location attribute (ShellJob the command, UrlJob the url,
BrowserJob the navigate target); None when the attribute is not a string
(get_location is abstract at the base). -/
def get_location (reg : List Kind) (j : Job) : Option String :=
  match subclassLookup reg j.kind with
  | some k =>
    match getAttr j k.loc_attr with
    | some (PV.str s) => some s
    | _ => none
  | none => none

def get_guid (reg : List Kind) (j : Job) : Option String :=
  match get_location reg j with
  | some l => some (guidOfLocation l)
  | none => none

def H5Bounded (h : H5) : Prop :=
  h.a < M32 ∧ h.b < M32 ∧ h.c < M32 ∧ h.d < M32 ∧ h.e < M32

def boolFunToLocation (v : Fin 161 → Bool) : String :=
  String.mk (List.ofFn (fun i => if v i then 'a' else 'b'))

def guidDigestOf (v : Fin 161 → Bool) : Nat :=
  sha1DigestNat (utf8Encode (boolFunToLocation v))

def jG1 : Job := Job.mk "shell" [("command", PV.str "shared-location")]

def jG2 : Job := Job.mk "url" [("url", PV.str "shared-location")]

/-!
Theorems.
-/

theorem dictGet_set_self {α : Type} (d : List (String × α)) (k : String) (v : α) :
    dictGet (dictSet d k v) k = some v := by
  induction d with
  | nil => simp [dictSet, dictGet]
  | cons p rest ih =>
    by_cases h : p.1 = k
    · simp [dictSet, h, dictGet]
    · simp [dictSet, h, dictGet, ih]

theorem dictGet_set_ne {α : Type} (d : List (String × α)) (k k' : String) (v : α)
    (h : k' ≠ k) : dictGet (dictSet d k v) k' = dictGet d k' := by
  induction d with
  | nil =>
    simp only [dictSet, dictGet]
    rw [if_neg (fun hh => h hh.symm)]
  | cons p rest ih =>
    by_cases hp : p.1 = k
    · have hpk' : p.1 ≠ k' := fun hh => h (hp.symm.trans hh).symm
      simp only [dictSet, if_pos hp, dictGet]
      rw [if_neg (fun hh : k = k' => h hh.symm), if_neg hpk']
    · simp only [dictSet, if_neg hp, dictGet]
      by_cases hp' : p.1 = k'
      · rw [if_pos hp', if_pos hp']
      · rw [if_neg hp', if_neg hp', ih]

theorem dictGet_pop_self {α : Type} (d : List (String × α)) (k : String) :
    dictGet (dictPop d k) k = none := by
  induction d with
  | nil => rfl
  | cons p rest ih =>
    by_cases h : p.1 = k
    · simpa only [dictPop, if_pos h] using ih
    · simp only [dictPop, if_neg h, dictGet, ih]

theorem dictGet_pop_ne {α : Type} (d : List (String × α)) (k k' : String) (h : k' ≠ k) :
    dictGet (dictPop d k) k' = dictGet d k' := by
  induction d with
  | nil => rfl
  | cons p rest ih =>
    by_cases h1 : p.1 = k
    · have hp' : p.1 ≠ k' := fun hh => h (hh.symm.trans h1)
      simp only [dictPop, if_pos h1, dictGet]
      rw [if_neg hp', ih]
    · simp only [dictPop, if_neg h1, dictGet]
      by_cases hp' : p.1 = k'
      · rw [if_pos hp', if_pos hp']
      · rw [if_neg hp', if_neg hp', ih]

theorem dictGet_eq_none_of_not_mem_keys {α : Type} (d : List (String × α)) (k : String)
    (h : k ∉ dictKeys d) : dictGet d k = none := by
  induction d with
  | nil => rfl
  | cons p rest ih =>
    simp only [dictKeys, List.map_cons, List.mem_cons, not_or] at h
    simp only [dictGet]
    rw [if_neg (fun hh => h.1 hh.symm)]
    exact ih h.2

theorem dictGet_mem_of_eq_some {α : Type} (d : List (String × α)) (k : String) (v : α)
    (h : dictGet d k = some v) : (k, v) ∈ d := by
  induction d with
  | nil => simp [dictGet] at h
  | cons p rest ih =>
    by_cases hp : p.1 = k
    · simp only [dictGet, if_pos hp] at h
      have hv : p.2 = v := Option.some.inj h
      cases p with
      | mk a b =>
        simp only at hp hv
        subst hp
        subst hv
        exact List.mem_cons_self _ _
    · simp only [dictGet, if_neg hp] at h
      exact List.mem_cons_of_mem _ (ih h)

theorem dictGet_eq_some_of_mem {α : Type} (d : List (String × α)) (k : String) (v : α)
    (hnd : (dictKeys d).Nodup) (h : (k, v) ∈ d) : dictGet d k = some v := by
  induction d with
  | nil => simp at h
  | cons p rest ih =>
    simp only [dictKeys, List.map_cons, List.nodup_cons] at hnd
    rcases List.mem_cons.mp h with h1 | h1
    · rw [← h1]
      simp [dictGet]
    · have hpk : p.1 ≠ k := by
        intro hh
        apply hnd.1
        rw [hh]
        exact List.mem_map_of_mem (fun q => q.1) h1
      simp only [dictGet, if_neg hpk]
      exact ih hnd.2 h1

theorem dictGet_foldl_set_not_mem {α β : Type} (l : List β) (key : β → String) (val : β → α)
    (init : List (String × α)) (k : String) (h : ∀ b ∈ l, key b ≠ k) :
    dictGet (l.foldl (fun a b => dictSet a (key b) (val b)) init) k = dictGet init k := by
  induction l generalizing init with
  | nil => simp
  | cons b rest ih =>
    simp only [List.foldl_cons]
    rw [ih _ (fun x hx => h x (List.mem_cons_of_mem _ hx))]
    exact dictGet_set_ne _ _ _ _ (fun hh => h b (List.mem_cons_self _ _) hh.symm)

theorem dictGet_foldl_set_mem {α β : Type} (l : List β) (key : β → String) (val : β → α)
    (init : List (String × α)) (b : β)
    (hnd : (l.map key).Nodup) (hb : b ∈ l) :
    dictGet (l.foldl (fun a x => dictSet a (key x) (val x)) init) (key b) = some (val b) := by
  induction l generalizing init with
  | nil => simp at hb
  | cons c rest ih =>
    simp only [List.map_cons, List.nodup_cons] at hnd
    rcases List.mem_cons.mp hb with h1 | h1
    · subst h1
      simp only [List.foldl_cons]
      rw [dictGet_foldl_set_not_mem _ key val _ _
        (fun x hx hh => hnd.1 (by rw [← hh]; exact List.mem_map_of_mem key hx))]
      exact dictGet_set_self _ _ _
    · simp only [List.foldl_cons]
      exact ih _ hnd.2 h1

theorem dictGet_foldl_pop_not_mem {α : Type} (l : List String) (init : List (String × α))
    (k : String) (h : k ∉ l) :
    dictGet (l.foldl (fun a x => dictPop a x) init) k = dictGet init k := by
  induction l generalizing init with
  | nil => simp
  | cons c rest ih =>
    simp only [List.foldl_cons]
    simp only [List.mem_cons, not_or] at h
    rw [ih _ h.2]
    exact dictGet_pop_ne _ _ _ h.1

theorem dictGet_foldl_pop_mem {α : Type} (l : List String) (init : List (String × α))
    (k : String) (h : k ∈ l) :
    dictGet (l.foldl (fun a x => dictPop a x) init) k = none := by
  induction l generalizing init with
  | nil => simp at h
  | cons c rest ih =>
    simp only [List.foldl_cons]
    rcases List.mem_cons.mp h with h1 | h1
    · subst h1
      by_cases hk : k ∈ rest
      · exact ih _ hk
      · rw [dictGet_foldl_pop_not_mem _ _ _ hk]
        exact dictGet_pop_self _ _
    · exact ih _ h1

/-!
Properties of construction and serialization, leading to the round-trip
theorem.
-/
theorem containsKey_iff_mem_keys {α : Type} (d : List (String × α)) (k : String) :
    containsKey d k = true ↔ k ∈ dictKeys d := by
  induction d with
  | nil => simp [containsKey, dictGet, dictKeys]
  | cons p rest ih =>
    by_cases h : p.1 = k
    · simp [containsKey, dictGet, h, dictKeys]
    · simp only [containsKey, dictGet, if_neg h, dictKeys, List.map_cons, List.mem_cons]
      rw [← dictKeys]
      constructor
      · intro hh
        exact Or.inr ((ih).mp hh)
      · intro hh
        rcases hh with hh | hh
        · exact absurd hh.symm h
        · exact ih.mpr hh

theorem containsKey_eq_false_iff {α : Type} (d : List (String × α)) (k : String) :
    containsKey d k = false ↔ dictGet d k = none := by
  unfold containsKey
  cases dictGet d k <;> simp

theorem listContains_iff (l : List String) (s : String) :
    l.contains s = true ↔ s ∈ l := by
  simp [List.contains_iff_exists_mem_beq, beq_iff_eq]

theorem mem_to_dict (k : Kind) (j : Job) (p : String × PV) (h : p ∈ to_dict k j) :
    p.1 ∈ k.required ++ k.optional ∧ getAttr j p.1 = some p.2 ∧ p.2 ≠ PV.null := by
  unfold to_dict at h
  rcases List.mem_filterMap.mp h with ⟨f, hf, heq⟩
  cases hga : getAttr j f with
  | none => rw [hga] at heq; simp at heq
  | some v =>
    rw [hga] at heq
    by_cases hv : v = PV.null
    · simp [hv] at heq
    · simp only [if_neg hv, Option.some.injEq] at heq
      rw [← heq]
      exact ⟨hf, hga, hv⟩

theorem to_dict_mem_of (k : Kind) (j : Job) (f : String) (v : PV)
    (hf : f ∈ k.required ++ k.optional) (hga : getAttr j f = some v) (hv : v ≠ PV.null) :
    (f, v) ∈ to_dict k j := by
  unfold to_dict
  apply List.mem_filterMap.mpr
  exact ⟨f, hf, by rw [hga]; simp [if_neg hv]⟩

theorem map_fst_filterMap_sublist (l : List String) (g : String → Option (String × PV))
    (hg : ∀ f p, g f = some p → p.1 = f) :
    ((l.filterMap g).map (fun p => p.1)).Sublist l := by
  induction l with
  | nil => simp
  | cons f rest ih =>
    cases hgf : g f with
    | none =>
      simp only [List.filterMap_cons, hgf]
      exact ih.cons _
    | some p =>
      simp only [List.filterMap_cons, hgf, List.map_cons]
      rw [hg f p hgf]
      exact ih.cons₂ _

theorem to_dict_keys_nodup (k : Kind) (j : Job) (hwf : KindWF k) :
    (dictKeys (to_dict k j)).Nodup := by
  apply List.Nodup.sublist _ hwf.1
  unfold to_dict dictKeys
  apply map_fst_filterMap_sublist
  intro f p hp
  cases hga : getAttr j f with
  | none => rw [hga] at hp; simp at hp
  | some v =>
    rw [hga] at hp
    by_cases hv : v = PV.null
    · simp [hv] at hp
    · simp only [if_neg hv, Option.some.injEq] at hp
      rw [← hp]

theorem dictGet_to_dict_eq_some (k : Kind) (j : Job) (hwf : KindWF k) (f : String) (v : PV) :
    dictGet (to_dict k j) f = some v ↔
      (f ∈ k.required ++ k.optional ∧ getAttr j f = some v ∧ v ≠ PV.null) := by
  constructor
  · intro h
    have hm := dictGet_mem_of_eq_some _ _ _ h
    exact mem_to_dict k j (f, v) hm
  · intro ⟨hf, hga, hv⟩
    exact dictGet_eq_some_of_mem _ _ _ (to_dict_keys_nodup k j hwf) (to_dict_mem_of k j f v hf hga hv)

theorem optional_null_fold_get (opt : List String) (kwargs : List (String × PV))
    (init : List (String × PV)) (f : String) :
    dictGet (opt.foldl
        (fun a o => if containsKey kwargs o then a else dictSet a o PV.null) init) f =
      if f ∈ opt ∧ containsKey kwargs f = false then some PV.null else dictGet init f := by
  induction opt generalizing init with
  | nil => simp
  | cons o rest ih =>
    simp only [List.foldl_cons]
    by_cases hc : containsKey kwargs o = true
    · rw [if_pos hc, ih]
      by_cases hmem : f ∈ rest ∧ containsKey kwargs f = false
      · rw [if_pos hmem, if_pos ⟨List.mem_cons_of_mem _ hmem.1, hmem.2⟩]
      · rw [if_neg hmem, if_neg ?cond]
        case cond =>
          intro ⟨hin, hck⟩
          rcases List.mem_cons.mp hin with h1 | h1
          · rw [h1, hc] at hck
            cases hck
          · exact hmem ⟨h1, hck⟩
    · have hc' : containsKey kwargs o = false := Bool.eq_false_iff.mpr hc
      rw [if_neg hc, ih]
      by_cases hmem : f ∈ rest ∧ containsKey kwargs f = false
      · rw [if_pos hmem, if_pos ⟨List.mem_cons_of_mem _ hmem.1, hmem.2⟩]
      · rw [if_neg hmem]
        by_cases hfo : f = o
        · rw [if_pos ⟨List.mem_cons.mpr (Or.inl hfo), by rw [hfo]; exact hc'⟩]
          rw [hfo]
          exact dictGet_set_self _ _ _
        · rw [dictGet_set_ne _ _ _ _ hfo]
          rw [if_neg ?c3]
          case c3 =>
            intro ⟨hin, hck⟩
            rcases List.mem_cons.mp hin with h1 | h1
            · exact hfo h1
            · exact hmem ⟨h1, hck⟩

theorem dictGet_eq_none_iff_not_mem {α : Type} (d : List (String × α)) (k : String) :
    dictGet d k = none ↔ k ∉ dictKeys d := by
  rw [← containsKey_eq_false_iff, ← containsKey_iff_mem_keys]
  cases h : containsKey d k <;> simp

theorem initJob_ok_of_required (k : Kind) (kwargs : List (String × PV))
    (h : ∀ r ∈ k.required, containsKey kwargs r = true) :
    initJob k kwargs = .ok (Job.mk k.tag (initAttrs k kwargs)) := by
  unfold initJob initAttrs
  rw [List.find?_eq_none.mpr (fun r hr => by simp [h r hr])]

theorem initJob_error_of_missing (k : Kind) (kwargs : List (String × PV))
    (h : ∃ r ∈ k.required, containsKey kwargs r = false) :
    ∃ r, initJob k kwargs = .error (.missingRequired r kwargs) ∧ r ∈ k.required ∧
      containsKey kwargs r = false := by
  have hs : (k.required.find? (fun r => !(containsKey kwargs r))).isSome := by
    rw [List.find?_isSome]
    obtain ⟨r, hr, hc⟩ := h
    exact ⟨r, hr, by simp [hc]⟩
  cases hf : k.required.find? (fun r => !(containsKey kwargs r)) with
  | none => rw [hf] at hs; simp at hs
  | some r =>
    refine ⟨r, ?_, List.mem_of_find?_eq_some hf, ?_⟩
    · unfold initJob
      rw [hf]
    · have := List.find?_some hf
      simpa using this

theorem initJob_ok_shape (k : Kind) (kwargs : List (String × PV)) (j : Job)
    (hok : initJob k kwargs = .ok j) :
    j = Job.mk k.tag (initAttrs k kwargs) := by
  unfold initJob at hok
  cases hf : k.required.find? (fun r => !(containsKey kwargs r)) with
  | some r => rw [hf] at hok; cases hok
  | none =>
    rw [hf] at hok
    exact (Except.ok.inj hok).symm

theorem initJob_getAttr_mem (k : Kind) (kwargs : List (String × PV)) (j : Job)
    (hok : initJob k kwargs = .ok j) (hnd : (dictKeys kwargs).Nodup)
    (f : String) (v : PV) (hget : dictGet kwargs f = some v) :
    getAttr j f = some v := by
  rw [initJob_ok_shape k kwargs j hok]
  have hm : (f, v) ∈ kwargs := dictGet_mem_of_eq_some _ _ _ hget
  exact dictGet_foldl_set_mem kwargs (fun p => p.1) (fun p => p.2) _ (f, v) hnd hm

theorem initJob_getAttr_not_mem (k : Kind) (kwargs : List (String × PV)) (j : Job)
    (hok : initJob k kwargs = .ok j)
    (f : String) (hget : dictGet kwargs f = none) :
    getAttr j f = if f ∈ k.optional then some PV.null else none := by
  rw [initJob_ok_shape k kwargs j hok]
  show dictGet (initAttrs k kwargs) f = _
  unfold initAttrs
  have hnm : f ∉ dictKeys kwargs := (dictGet_eq_none_iff_not_mem _ _).mp hget
  rw [dictGet_foldl_set_not_mem kwargs (fun p => p.1) (fun p => p.2) _ f
    (fun b hb hh => hnm (by rw [← hh]; exact List.mem_map_of_mem _ hb))]
  rw [optional_null_fold_get]
  have hck : containsKey kwargs f = false := (containsKey_eq_false_iff _ _).mpr hget
  by_cases ho : f ∈ k.optional
  · rw [if_pos ⟨ho, hck⟩, if_pos ho]
  · rw [if_neg (fun hh => ho hh.1), if_neg ho]
    rfl

theorem containsKey_append {α : Type} (d1 d2 : List (String × α)) (x : String) :
    containsKey (d1 ++ d2) x = (containsKey d1 x || containsKey d2 x) := by
  induction d1 with
  | nil => simp [containsKey, dictGet]
  | cons p rest ih =>
    by_cases h : p.1 = x
    · simp [containsKey, dictGet, h]
    · simp only [List.cons_append, containsKey, dictGet, if_neg h]
      exact ih

theorem dictSet_eq_append_of_not_contains {α : Type} (d : List (String × α)) (k : String)
    (v : α) (h : containsKey d k = false) : dictSet d k v = d ++ [(k, v)] := by
  induction d with
  | nil => rfl
  | cons p rest ih =>
    simp only [containsKey, dictGet] at h
    by_cases hp : p.1 = k
    · rw [if_pos hp] at h
      simp at h
    · rw [if_neg hp] at h
      simp only [dictSet, if_neg hp, List.cons_append]
      rw [ih h]

theorem foldl_set_eq_append {α : Type} (l : List (String × α)) (init : List (String × α))
    (h1 : ∀ p ∈ l, containsKey init p.1 = false) (h2 : (dictKeys l).Nodup) :
    l.foldl (fun a p => dictSet a p.1 p.2) init = init ++ l := by
  induction l generalizing init with
  | nil => simp
  | cons p rest ih =>
    simp only [dictKeys, List.map_cons, List.nodup_cons] at h2
    simp only [List.foldl_cons]
    rw [dictSet_eq_append_of_not_contains _ _ _ (h1 p (List.mem_cons_self _ _))]
    rw [ih _ ?h1' h2.2]
    · rw [List.append_assoc, List.singleton_append]
    case h1' =>
      intro q hq
      rw [containsKey_append]
      rw [h1 q (List.mem_cons_of_mem _ hq)]
      have hqp : q.1 ≠ p.1 := by
        intro hh
        exact h2.1 (by rw [← hh]; exact List.mem_map_of_mem _ hq)
      have hpq : ¬p.1 = q.1 := fun hh => hqp hh.symm
      simp [containsKey, dictGet, hpq]

theorem serialize_eq_cons (k : Kind) (j : Job) (hwf : KindWF k) :
    serialize k j = ("kind", PV.str k.tag) :: to_dict k j := by
  unfold serialize
  rw [foldl_set_eq_append _ _ ?h1 (to_dict_keys_nodup k j hwf)]
  · rw [List.singleton_append]
  case h1 =>
    intro p hp
    have hd := (mem_to_dict k j p hp).1
    have hne : p.1 ≠ "kind" := by
      intro hh
      rcases List.mem_append.mp hd with h1 | h1
      · exact hwf.2.1 (hh ▸ h1)
      · exact hwf.2.2 (hh ▸ h1)
    have hkp : ¬"kind" = p.1 := fun hh => hne hh.symm
    simp [containsKey, dictGet, hkp]

theorem dictPop_eq_self_of_not_mem {α : Type} (d : List (String × α)) (k : String)
    (h : k ∉ dictKeys d) : dictPop d k = d := by
  induction d with
  | nil => rfl
  | cons p rest ih =>
    simp only [dictKeys, List.map_cons, List.mem_cons, not_or] at h
    simp only [dictPop]
    rw [if_neg (fun hh => h.1 hh.symm), ih (by simpa [dictKeys] using h.2)]

theorem to_dict_no_kind_key (k : Kind) (j : Job) (hwf : KindWF k) :
    "kind" ∉ dictKeys (to_dict k j) := by
  intro hmem
  unfold dictKeys at hmem
  rcases List.mem_map.mp hmem with ⟨p, hp, hp1⟩
  have hd := (mem_to_dict k j p hp).1
  rcases List.mem_append.mp hd with h1 | h1
  · exact hwf.2.1 (hp1 ▸ h1)
  · exact hwf.2.2 (hp1 ▸ h1)

theorem serialize_pop_kind (k : Kind) (j : Job) (hwf : KindWF k) :
    dictPop (serialize k j) "kind" = to_dict k j := by
  rw [serialize_eq_cons k j hwf]
  simp only [dictPop, if_pos rfl]
  exact dictPop_eq_self_of_not_mem _ _ (to_dict_no_kind_key k j hwf)

theorem dictGet_serialize_kind (k : Kind) (j : Job) (hwf : KindWF k) :
    dictGet (serialize k j) "kind" = some (PV.str k.tag) := by
  rw [serialize_eq_cons k j hwf]
  simp [dictGet]

theorem subclassLookup_self (reg : List Kind) (k : Kind)
    (hnd : (reg.map (fun x => x.tag)).Nodup) (hk : k ∈ reg) :
    subclassLookup reg k.tag = some k := by
  induction reg with
  | nil => simp at hk
  | cons c rest ih =>
    simp only [List.map_cons, List.nodup_cons] at hnd
    rcases List.mem_cons.mp hk with h1 | h1
    · rw [← h1]
      unfold subclassLookup
      rw [List.find?_cons_of_pos _ (by simp)]
    · have hct : c.tag ≠ k.tag := by
        intro hh
        exact hnd.1 (by rw [hh]; exact List.mem_map_of_mem _ h1)
      unfold subclassLookup
      rw [List.find?_cons_of_neg _ (by simp [hct])]
      exact ih hnd.2 h1

theorem from_dict_filter_to_dict (k : Kind) (j : Job) :
    from_dict_filter k (to_dict k j) = to_dict k j := by
  unfold from_dict_filter
  apply List.filter_eq_self.mpr
  intro p hp
  have hd := (mem_to_dict k j p hp).1
  rcases List.mem_append.mp hd with h1 | h1
  · have hc := (listContains_iff k.required p.1).mpr h1
    simp [hc]
    exact Or.inl h1
  · have hc := (listContains_iff k.optional p.1).mpr h1
    simp [hc]
    exact Or.inr h1

theorem from_dict_filter_serialize (k : Kind) (j : Job) (hwf : KindWF k) :
    from_dict_filter k (serialize k j) = to_dict k j := by
  rw [serialize_eq_cons k j hwf]
  unfold from_dict_filter
  rw [List.filter_cons_of_neg ?hkind]
  · exact from_dict_filter_to_dict k j
  case hkind =>
    simp only [Bool.or_eq_true, not_or]
    constructor
    · intro hh
      exact hwf.2.1 ((listContains_iff _ _).mp hh)
    · intro hh
      exact hwf.2.2 ((listContains_iff _ _).mp hh)

theorem required_containsKey_to_dict (k : Kind) (j : Job) (hv : JobValid k j) :
    ∀ r ∈ k.required, containsKey (to_dict k j) r = true := by
  intro r hr
  obtain ⟨v, hga, hvn⟩ := hv.2.1 r hr
  have hm := to_dict_mem_of k j r v (List.mem_append.mpr (Or.inl hr)) hga hvn
  rw [containsKey_iff_mem_keys]
  exact List.mem_map_of_mem _ hm

theorem initJob_to_dict_roundtrip (k : Kind) (j : Job) (hwf : KindWF k) (hv : JobValid k j) :
    ∃ j', initJob k (to_dict k j) = .ok j' ∧ j'.kind = k.tag ∧
      ∀ f, getAttr j' f = getAttr j f := by
  have hreq := required_containsKey_to_dict k j hv
  refine ⟨_, initJob_ok_of_required k _ hreq, rfl, ?_⟩
  intro f
  have hok := initJob_ok_of_required k (to_dict k j) hreq
  have hnd := to_dict_keys_nodup k j hwf
  cases hget : dictGet (to_dict k j) f with
  | some v =>
    rw [initJob_getAttr_mem k _ _ hok hnd f v hget]
    exact ((dictGet_to_dict_eq_some k j hwf f v).mp hget).2.1.symm
  | none =>
    rw [initJob_getAttr_not_mem k _ _ hok f hget]
    by_cases ho : f ∈ k.optional
    · rw [if_pos ho]
      obtain ⟨w, hw⟩ := Option.isSome_iff_exists.mp (hv.2.2.1 f ho)
      by_cases hwn : w = PV.null
      · rw [hw, hwn]
      · exfalso
        have hm := to_dict_mem_of k j f w (List.mem_append.mpr (Or.inr ho)) hw hwn
        have hc := dictGet_eq_some_of_mem _ _ _ hnd hm
        rw [hget] at hc
        cases hc
    · rw [if_neg ho]
      by_cases hr : f ∈ k.required
      · exfalso
        obtain ⟨v, hga, hvn⟩ := hv.2.1 f hr
        have hm := to_dict_mem_of k j f v (List.mem_append.mpr (Or.inl hr)) hga hvn
        have hc := dictGet_eq_some_of_mem _ _ _ hnd hm
        rw [hget] at hc
        cases hc
      · cases hgj : getAttr j f with
        | none => rfl
        | some w =>
          exfalso
          have hm := dictGet_mem_of_eq_some _ _ _ hgj
          rcases hv.2.2.2 (f, w) hm with h1 | h1
          · exact hr h1
          · exact ho h1

theorem unserializeAs_roundtrip (reg : List Kind) (k : Kind) (j : Job)
    (hwf : RegWF reg) (hk : k ∈ reg) (hv : JobValid k j)
    (D : List (String × PV)) (hD : from_dict_filter k D = to_dict k j) :
    ∃ j', unserializeAs reg k.tag D = .ok j' ∧ j'.kind = j.kind ∧
      ∀ f, getAttr j' f = getAttr j f := by
  obtain ⟨j', hok, hkind, hatt⟩ := initJob_to_dict_roundtrip k j (hwf.2 k hk) hv
  refine ⟨j', ?_, by rw [hkind, hv.1], hatt⟩
  have hred : unserializeAs reg k.tag D =
      (match from_dict k D with
        | .ok j => Except.ok j
        | .error e => Except.error (.construction e)) := by
    unfold unserializeAs
    rw [subclassLookup_self reg k hwf.1 hk]
  rw [hred]
  unfold from_dict
  rw [hD, hok]

theorem kindMatches_to_dict_self (k : Kind) (j : Job) (hv : JobValid k j) :
    kindMatches k (to_dict k j) = true := by
  unfold kindMatches
  rw [Bool.and_eq_true]
  constructor
  · rw [List.all_eq_true]
    intro r hr
    exact required_containsKey_to_dict k j hv r hr
  · rw [Bool.not_eq_true']
    rw [List.any_eq_false]
    intro p hp
    have hd := (mem_to_dict k j p hp).1
    rcases List.mem_append.mp hd with h1 | h1
    · simp [h1]
    · simp [h1]

/-- C1: for every valid job j of every registered kind, unserialize after
serialize reconstructs a job of the same kind whose attributes agree with
those of j on every field name (so in particular all populated fields are
identical); and the same holds when the kind entry is removed from the
serialized record, provided auto-detection finds exactly one match. -/
theorem claim_C1_roundtrip (reg : List Kind) (k : Kind) (j : Job)
    (hwf : RegWF reg) (hk : k ∈ reg) (hv : JobValid k j) :
    (∃ j', unserialize reg (serialize k j) = .ok j' ∧ j'.kind = j.kind ∧
      ∀ f, getAttr j' f = getAttr j f) ∧
    ((autoMatchTags reg (dictPop (serialize k j) "kind")).length = 1 →
      ∃ j', unserialize reg (dictPop (serialize k j) "kind") = .ok j' ∧ j'.kind = j.kind ∧
        ∀ f, getAttr j' f = getAttr j f) := by
  have hkwf := hwf.2 k hk
  constructor
  · obtain ⟨j', h1, h2, h3⟩ := unserializeAs_roundtrip reg k j hwf hk hv (serialize k j)
      (from_dict_filter_serialize k j hkwf)
    refine ⟨j', ?_, h2, h3⟩
    unfold unserialize
    rw [dictGet_serialize_kind k j hkwf]
    exact h1
  · intro hlen
    rw [serialize_pop_kind k j hkwf] at hlen ⊢
    have hmem : k.tag ∈ autoMatchTags reg (to_dict k j) := by
      unfold autoMatchTags
      exact List.mem_map_of_mem _
        (List.mem_filter.mpr ⟨hk, kindMatches_to_dict_self k j hv⟩)
    have hlist : autoMatchTags reg (to_dict k j) = [k.tag] := by
      cases hl : autoMatchTags reg (to_dict k j) with
      | nil => rw [hl] at hmem; simp at hmem
      | cons t ts =>
        rw [hl] at hlen hmem
        simp only [List.length_cons, Nat.add_left_eq_self] at hlen
        have hts : ts = [] := List.length_eq_zero.mp (by omega)
        subst hts
        simp only [List.mem_singleton] at hmem
        rw [hmem]
    obtain ⟨j', h1, h2, h3⟩ := unserializeAs_roundtrip reg k j hwf hk hv (to_dict k j)
      (from_dict_filter_to_dict k j)
    refine ⟨j', ?_, h2, h3⟩
    unfold unserialize
    rw [(dictGet_eq_none_iff_not_mem _ _).mpr (to_dict_no_kind_key k j hkwf), hlist]
    exact h1

theorem kindMatches_iff (k : Kind) (data : List (String × PV)) :
    kindMatches k data = true ↔
      ((∀ r ∈ k.required, r ∈ dictKeys data) ∧
       (∀ p ∈ data, p.1 ∈ k.required ∨ p.1 ∈ k.optional)) := by
  unfold kindMatches
  rw [Bool.and_eq_true, List.all_eq_true, Bool.not_eq_true', List.any_eq_false]
  constructor
  · intro ⟨h1, h2⟩
    refine ⟨fun r hr => (containsKey_iff_mem_keys data r).mp (h1 r hr), fun p hp => ?_⟩
    have h3 := h2 p hp
    by_cases hr : p.1 ∈ k.required
    · exact Or.inl hr
    · by_cases hop : p.1 ∈ k.optional
      · exact Or.inr hop
      · exfalso
        apply h3
        have hcr : k.required.contains p.1 = false := by
          cases hcc : k.required.contains p.1
          · rfl
          · exact absurd ((listContains_iff _ _).mp hcc) hr
        have hco : k.optional.contains p.1 = false := by
          cases hcc : k.optional.contains p.1
          · rfl
          · exact absurd ((listContains_iff _ _).mp hcc) hop
        simp only [hcr, hco]
        simp
  · intro ⟨h1, h2⟩
    refine ⟨fun r hr => (containsKey_iff_mem_keys data r).mpr (h1 r hr), fun p hp => ?_⟩
    rcases h2 p hp with hm | hm
    · simp only [Bool.and_eq_true, Bool.not_eq_true']
      intro hand
      rw [(listContains_iff _ _).mpr hm] at hand
      cases hand.1
    · simp only [Bool.and_eq_true, Bool.not_eq_true']
      intro hand
      rw [(listContains_iff _ _).mpr hm] at hand
      cases hand.2

/-- C2: on a record without a kind entry, the auto-detected candidate list
consists of exactly the registered kinds whose required fields all occur in
the record and all of whose record keys are declared (required or
optional); a single candidate is used for construction, no candidate fails
with the no-match error, and several candidates fail with the
ambiguous-match error listing all matching tags. -/
theorem claim_C2_autodetect (reg : List Kind) (data : List (String × PV))
    (hnk : dictGet data "kind" = none) :
    (∀ t, t ∈ autoMatchTags reg data ↔ ∃ k ∈ reg, k.tag = t ∧
      (∀ r ∈ k.required, r ∈ dictKeys data) ∧
      (∀ p ∈ data, p.1 ∈ k.required ∨ p.1 ∈ k.optional)) ∧
    (autoMatchTags reg data = [] → unserialize reg data = .error (.noMatch data)) ∧
    (∀ t, autoMatchTags reg data = [t] → unserialize reg data = unserializeAs reg t data) ∧
    (2 ≤ (autoMatchTags reg data).length →
      unserialize reg data = .error (.ambiguousKinds data (autoMatchTags reg data))) := by
  refine ⟨?_, ?_, ?_, ?_⟩
  · intro t
    unfold autoMatchTags
    rw [List.mem_map]
    constructor
    · intro ⟨k, hk, ht⟩
      have hf := List.mem_filter.mp hk
      exact ⟨k, hf.1, ht, (kindMatches_iff k data).mp hf.2⟩
    · intro ⟨k, hk, ht, hc1, hc2⟩
      exact ⟨k, List.mem_filter.mpr ⟨hk, (kindMatches_iff k data).mpr ⟨hc1, hc2⟩⟩, ht⟩
  · intro he
    unfold unserialize
    rw [hnk, he]
  · intro t ht
    unfold unserialize
    rw [hnk, ht]
  · intro hlen
    unfold unserialize
    rw [hnk]
    cases hl : autoMatchTags reg data with
    | nil => rw [hl] at hlen; simp at hlen
    | cons t ts =>
      cases ts with
      | nil => rw [hl] at hlen; simp at hlen
      | cons t2 ts2 => rfl

theorem claim_C2_autodetect_w :
    dictGet dataC2 "kind" = none ∧
    (("shell" ∈ autoMatchTags jobsRegistry dataC2 ↔ ∃ k ∈ jobsRegistry, k.tag = "shell" ∧
        (∀ r ∈ k.required, r ∈ dictKeys dataC2) ∧
        (∀ p ∈ dataC2, p.1 ∈ k.required ∨ p.1 ∈ k.optional)) ∧
      (autoMatchTags jobsRegistry dataC2 = ["shell"] →
        unserialize jobsRegistry dataC2 = unserializeAs jobsRegistry "shell" dataC2) ∧
      unserialize jobsRegistry dataC2 = .ok (Job.mk "shell" [("command", PV.str "uptime")])) :=
  ⟨by decide,
    ⟨(claim_C2_autodetect jobsRegistry dataC2 (by decide)).1 "shell",
     (claim_C2_autodetect jobsRegistry dataC2 (by decide)).2.2.1 "shell",
     by rfl⟩⟩

theorem claim_C1_roundtrip_w :
    RegWF jobsRegistry ∧ shellKind ∈ jobsRegistry ∧ JobValid shellKind jW1 ∧
    ((∃ j', unserialize jobsRegistry (serialize shellKind jW1) = .ok j' ∧
        j'.kind = jW1.kind ∧ ∀ f, getAttr j' f = getAttr jW1 f) ∧
      ((autoMatchTags jobsRegistry (dictPop (serialize shellKind jW1) "kind")).length = 1 →
        ∃ j', unserialize jobsRegistry (dictPop (serialize shellKind jW1) "kind") = .ok j' ∧
          j'.kind = jW1.kind ∧ ∀ f, getAttr j' f = getAttr jW1 f)) :=
  ⟨by decide, by decide, by decide,
    claim_C1_roundtrip jobsRegistry shellKind jW1 (by decide) (by decide) (by decide)⟩

theorem unserializeAs_ok (reg : List Kind) (t : String) (data : List (String × PV)) (j : Job)
    (h : unserializeAs reg t data = .ok j) :
    ∃ k, subclassLookup reg t = some k ∧ initJob k (from_dict_filter k data) = .ok j ∧
      j.kind = k.tag := by
  cases hl : subclassLookup reg t with
  | none =>
    unfold unserializeAs at h
    rw [hl] at h
    cases h
  | some k =>
    have h' : (match from_dict k data with
        | Except.ok j2 => (Except.ok j2 : Except UnserializeError Job)
        | Except.error e => Except.error (UnserializeError.construction e)) = Except.ok j := by
      rw [← h]
      unfold unserializeAs
      rw [hl]
    cases hi : from_dict k data with
    | error e =>
      rw [hi] at h'
      have h2 : (Except.error (UnserializeError.construction e) : Except UnserializeError Job)
          = .ok j := h'
      cases h2
    | ok j2 =>
      rw [hi] at h'
      have h2 : (Except.ok j2 : Except UnserializeError Job) = .ok j := h'
      have hj : j2 = j := Except.ok.inj h2
      subst hj
      unfold from_dict at hi
      refine ⟨k, rfl, hi, ?_⟩
      rw [initJob_ok_shape _ _ _ hi]

theorem unserialize_ok_cases (reg : List Kind) (data : List (String × PV)) (j : Job)
    (h : unserialize reg data = .ok j) :
    ∃ t k, subclassLookup reg t = some k ∧ initJob k (from_dict_filter k data) = .ok j ∧
      j.kind = k.tag := by
  unfold unserialize at h
  cases hdg : dictGet data "kind" with
  | none =>
    rw [hdg] at h
    cases hl : autoMatchTags reg data with
    | nil =>
      rw [hl] at h
      cases h
    | cons t ts =>
      cases ts with
      | nil =>
        rw [hl] at h
        exact ⟨t, unserializeAs_ok reg t data j h⟩
      | cons t2 ts2 =>
        rw [hl] at h
        cases h
  | some v =>
    rw [hdg] at h
    cases v with
    | str t => exact ⟨t, unserializeAs_ok reg t data j h⟩
    | null => cases h
    | int n => cases h
    | bool b => cases h

theorem to_dict_key_declared (k : Kind) (j : Job) (f : String)
    (h : f ∈ dictKeys (to_dict k j)) : f ∈ k.required ++ k.optional := by
  unfold dictKeys at h
  rcases List.mem_map.mp h with ⟨p, hp, hp1⟩
  exact hp1 ▸ (mem_to_dict k j p hp).1

theorem from_dict_filter_undeclared_none (k : Kind) (data : List (String × PV)) (key : String)
    (hnr : key ∉ k.required) (hno : key ∉ k.optional) :
    dictGet (from_dict_filter k data) key = none := by
  cases hg : dictGet (from_dict_filter k data) key with
  | none => rfl
  | some v =>
    exfalso
    have hm := dictGet_mem_of_eq_some _ _ _ hg
    have hf := List.mem_filter.mp hm
    have h2 := hf.2
    simp only [Bool.or_eq_true] at h2
    rcases h2 with hc | hc
    · exact hnr ((listContains_iff _ _).mp hc)
    · exact hno ((listContains_iff _ _).mp hc)

/-- C9: a record key that is neither required nor optional for the resolved
kind is silently dropped by unserialize (the attribute is absent on the
constructed job, and does not reappear when serializing it), while direct
construction accepts and stores such unknown fields. -/
theorem claim_C9_unknown_fields :
    (∀ (reg : List Kind) (data : List (String × PV)) (j : Job) (k : Kind) (key : String),
      unserialize reg data = .ok j →
      subclassLookup reg j.kind = some k →
      key ∉ k.required → key ∉ k.optional →
      getAttr j key = none ∧
        (key ≠ "kind" → dictGet (serialize k j) key = none)) ∧
    (∀ (k : Kind) (kwargs : List (String × PV)) (j : Job) (key : String) (v : PV),
      (dictKeys kwargs).Nodup → initJob k kwargs = .ok j → (key, v) ∈ kwargs →
      getAttr j key = some v) := by
  constructor
  · intro reg data j k key hok hlook hnr hno
    obtain ⟨t, k', hl', hinit, hkind⟩ := unserialize_ok_cases reg data j hok
    have htag : k'.tag = t := by
      have := List.find?_some hl'
      simpa using this
    have hkk : k = k' := by
      rw [hkind] at hlook
      rw [← htag] at hl'
      exact Option.some.inj (hlook.symm.trans hl')
    subst hkk
    have hga : getAttr j key = none := by
      have hg := from_dict_filter_undeclared_none k data key hnr hno
      rw [initJob_getAttr_not_mem k _ j hinit key hg]
      rw [if_neg hno]
    refine ⟨hga, fun hne => ?_⟩
    unfold serialize
    rw [dictGet_foldl_set_not_mem (to_dict k j) (fun p => p.1) (fun p => p.2) _ key ?hh]
    · have hkey : ¬"kind" = key := fun hh => hne hh.symm
      simp [dictGet, hkey]
    case hh =>
      intro p hp hh
      have hd := (mem_to_dict k j p hp).1
      rcases List.mem_append.mp hd with h1 | h1
      · exact hnr (hh ▸ h1)
      · exact hno (hh ▸ h1)
  · intro k kwargs j key v hnd hok hm
    exact initJob_getAttr_mem k kwargs j hok hnd key v (dictGet_eq_some_of_mem _ _ _ hnd hm)

theorem claim_C9_unknown_fields_w :
    (unserialize jobsRegistry dataC9 = .ok jC9 ∧ getAttr jC9 "extra" = none ∧
      ("extra" ≠ "kind" → dictGet (serialize shellKind jC9) "extra" = none)) ∧
    (initJob shellKind kwargsC9 = .ok jC9b ∧ getAttr jC9b "extra" = some (PV.str "x")) :=
  ⟨⟨by rfl,
    (claim_C9_unknown_fields.1 jobsRegistry dataC9 jC9 shellKind "extra"
      (by rfl) (by rfl) (by decide) (by decide)).1,
    (claim_C9_unknown_fields.1 jobsRegistry dataC9 jC9 shellKind "extra"
      (by rfl) (by rfl) (by decide) (by decide)).2⟩,
   ⟨by rfl,
    claim_C9_unknown_fields.2 shellKind kwargsC9 jC9b "extra" (PV.str "x")
      (by decide) (by rfl) (by decide)⟩⟩

/-- C3 (amended): omitting a required field makes construction fail with a
ValueError raised at the first missing required field; its message names
that field and reprs the passed field map, but does not (in general)
contain the kind tag. With all required fields present construction
succeeds, and every absent optional field is set to the None marker. -/
theorem claim_C3_construction (k : Kind) (kwargs : List (String × PV)) :
    ((∃ r ∈ k.required, containsKey kwargs r = false) →
      ∃ r, initJob k kwargs = .error (.missingRequired r kwargs) ∧ r ∈ k.required ∧
        containsKey kwargs r = false ∧
        strMentions (missingFieldMessage (.missingRequired r kwargs)) r) ∧
    ((∀ r ∈ k.required, containsKey kwargs r = true) →
      ∃ j, initJob k kwargs = .ok j ∧ j.kind = k.tag ∧
        ∀ o ∈ k.optional, containsKey kwargs o = false → getAttr j o = some PV.null) := by
  constructor
  · intro hmiss
    obtain ⟨r, herr, hr, hck⟩ := initJob_error_of_missing k kwargs hmiss
    refine ⟨r, herr, hr, hck, ?_⟩
    unfold strMentions missingFieldMessage
    exact ⟨"Required field ".data, (" missing: " ++ pyReprDict kwargs).data,
      by simp [List.append_assoc]⟩
  · intro hall
    refine ⟨_, initJob_ok_of_required k kwargs hall, rfl, ?_⟩
    intro o ho hck
    have hget : dictGet kwargs o = none := (containsKey_eq_false_iff _ _).mp hck
    rw [initJob_getAttr_not_mem k kwargs _ (initJob_ok_of_required k kwargs hall) o hget]
    rw [if_pos ho]

/-- C3 counterexample: constructing the shell kind with an empty field map
raises ValueError('Required field command missing: \x7b\x7d'); the message
names the missing field but not the kind, so the claim that the error
names the kind fails here. -/
theorem claim_C3_construction_cex :
    initJob shellKind [] = .error (.missingRequired "command" []) ∧
    missingFieldMessage (.missingRequired "command" []) =
      "Required field command missing: \x7b\x7d" ∧
    ¬ strMentions (missingFieldMessage (.missingRequired "command" [])) "shell" := by
  refine ⟨by rfl, by rfl, by decide⟩

theorem claim_C3_construction_w :
    (∃ r, initJob shellKind [] = .error (.missingRequired r []) ∧ r ∈ shellKind.required ∧
      containsKey ([] : List (String × PV)) r = false ∧
      strMentions (missingFieldMessage (.missingRequired r [])) r) ∧
    (∃ j, initJob urlKind [("url", PV.str "https://example.org")] = .ok j ∧
      j.kind = urlKind.tag ∧
      ∀ o ∈ urlKind.optional, containsKey [("url", PV.str "https://example.org")] o = false →
        getAttr j o = some PV.null) :=
  ⟨(claim_C3_construction shellKind []).1 ⟨"command", by decide, by decide⟩,
   (claim_C3_construction urlKind [("url", PV.str "https://example.org")]).2 (by decide)⟩

/-- C6: after the merge, every custom header's value is present under the
custom header's exact name, and any name that matches some custom header
case-insensitively without being a custom name itself is absent — the
custom headers win regardless of case variation in the base map. -/
theorem claim_C6_header_override (base : List (String × Option String))
    (custom : List (String × String))
    (hnd : (custom.map (fun p => p.1)).Nodup) (hne : custom ≠ []) :
    (∀ p ∈ custom, dictGet (add_custom_headers base custom) p.1 = some (some p.2)) ∧
    (∀ x, (∃ p ∈ custom, lowerStr p.1 = lowerStr x) → x ∉ custom.map (fun p => p.1) →
      dictGet (add_custom_headers base custom) x = none) := by
  constructor
  · intro p hp
    unfold add_custom_headers
    exact dictGet_foldl_set_mem custom (fun q => q.1) (fun q => some q.2) _ p hnd hp
  · intro x hex hnx
    obtain ⟨p, hp, hlow⟩ := hex
    unfold add_custom_headers
    rw [dictGet_foldl_set_not_mem custom (fun q => q.1) (fun q => some q.2) _ x
      (fun b hb hh => hnx (by rw [← hh]; exact List.mem_map_of_mem _ hb))]
    by_cases hbase : x ∈ dictKeys base
    · apply dictGet_foldl_pop_mem
      apply List.mem_filter.mpr
      refine ⟨hbase, ?_⟩
      rw [listContains_iff]
      rw [← hlow]
      exact List.mem_map_of_mem _ hp
    · have hxr : x ∉ (dictKeys base).filter
          (fun y => (custom.map (fun q => lowerStr q.1)).contains (lowerStr y)) :=
        fun hc => hbase (List.mem_of_mem_filter hc)
      rw [dictGet_foldl_pop_not_mem _ _ _ hxr]
      exact dictGet_eq_none_of_not_mem_keys _ _ hbase

theorem claim_C6_header_override_w :
    (∀ p ∈ customHeadersW,
      dictGet (add_custom_headers baseHeadersW customHeadersW) p.1 = some (some p.2)) ∧
    (∀ x, (∃ p ∈ customHeadersW, lowerStr p.1 = lowerStr x) →
      x ∉ customHeadersW.map (fun p => p.1) →
      dictGet (add_custom_headers baseHeadersW customHeadersW) x = none) :=
  claim_C6_header_override baseHeadersW customHeadersW (by decide) (by decide)

/-- C7: retrieve on an async job succeeds exactly when the loop has been
set via setup and is running, and fails with a RuntimeError otherwise —
in particular retrieve before setup always fails; cleanup succeeds exactly
when setup happened and the loop has stopped, and fails with a
RuntimeError otherwise; BrowserJob.retrieve propagates the guard failure. -/
theorem claim_C7_lifecycle :
    (∀ loop : Option EventLoop, (∃ u, asyncRetrieveCheck loop = .ok u) ↔
      ∃ lp, loop = some lp ∧ lp.is_running = true) ∧
    (∀ loop : Option EventLoop, (∃ u, asyncCleanupCheck loop = .ok u) ↔
      ∃ lp, loop = some lp ∧ lp.is_running = false) ∧
    asyncRetrieveCheck asyncJobInitialLoop = .error "Event loop not set up" ∧
    (∀ (loop : Option EventLoop) (nav m : String), asyncRetrieveCheck loop = .error m →
      browserRetrieve loop nav = .error m) := by
  refine ⟨?_, ?_, rfl, ?_⟩
  · intro loop
    cases loop with
    | none => simp [asyncRetrieveCheck]
    | some lp =>
      cases hr : lp.is_running with
      | false => simp [asyncRetrieveCheck, hr]
      | true => simp [asyncRetrieveCheck, hr]
  · intro loop
    cases loop with
    | none => simp [asyncCleanupCheck]
    | some lp =>
      cases hr : lp.is_running with
      | false => simp [asyncCleanupCheck, hr]
      | true => simp [asyncCleanupCheck, hr]
  · intro loop nav m herr
    unfold browserRetrieve
    rw [herr]

theorem claim_C7_lifecycle_w :
    ((∃ u, asyncRetrieveCheck (asyncSetup (EventLoop.mk true)) = .ok u) ↔
      ∃ lp, asyncSetup (EventLoop.mk true) = some lp ∧ lp.is_running = true) ∧
    ((∃ u, asyncCleanupCheck (asyncSetup (EventLoop.mk false)) = .ok u) ↔
      ∃ lp, asyncSetup (EventLoop.mk false) = some lp ∧ lp.is_running = false) ∧
    browserRetrieve asyncJobInitialLoop "https://example.org" =
      .error "Event loop not set up" :=
  ⟨claim_C7_lifecycle.1 (asyncSetup (EventLoop.mk true)),
   claim_C7_lifecycle.2.1 (asyncSetup (EventLoop.mk false)),
   claim_C7_lifecycle.2.2.2 asyncJobInitialLoop "https://example.org"
     "Event loop not set up" (by rfl)⟩

theorem add_custom_headers_preserves (h : HeaderMap) (custom : List (String × String))
    (x : String) (hno : ∀ p ∈ custom, lowerStr p.1 ≠ lowerStr x) :
    dictGet (add_custom_headers h custom) x = dictGet h x := by
  unfold add_custom_headers
  rw [dictGet_foldl_set_not_mem custom (fun q => q.1) (fun q => some q.2) _ x
    (fun b hb hh => hno b hb (congrArg lowerStr hh))]
  apply dictGet_foldl_pop_not_mem
  intro hmem
  have hf := List.mem_filter.mp hmem
  have hc := (listContains_iff _ _).mp hf.2
  rcases List.mem_map.mp hc with ⟨p, hp, hpl⟩
  exact hno p hp hpl

theorem applyETagHeader_self (st : JobState) (h : HeaderMap) (e : String)
    (he : st.etag = some e) :
    dictGet (applyETagHeader st h) "If-None-Match" = some (some e) := by
  unfold applyETagHeader
  rw [he]
  exact dictGet_set_self _ _ _

theorem applyIfModifiedSince_preserves (st : JobState) (h : HeaderMap) (x : String)
    (hx : x ≠ "If-Modified-Since") :
    dictGet (applyIfModifiedSince st h) x = dictGet h x := by
  unfold applyIfModifiedSince
  cases st.timestamp with
  | none => rfl
  | some t => exact dictGet_set_ne _ _ _ _ hx

theorem applyIgnoreCached_off (j : UrlJobModel) (now : Nat) (h : HeaderMap)
    (hic : j.ignore_cached = false) : applyIgnoreCached j now h = h := by
  unfold applyIgnoreCached
  rw [hic]
  rfl

theorem applyContentType_preserves (j : UrlJobModel) (h : HeaderMap) (x : String)
    (hx : x ≠ "Content-type") :
    dictGet (applyContentType j h) x = dictGet h x := by
  unfold applyContentType
  by_cases hd : j.data.isSome
  · rw [if_pos hd]
    exact dictGet_set_ne _ _ _ _ hx
  · rw [if_neg hd]

theorem applyCustomHeaders_preserves (j : UrlJobModel) (h : HeaderMap) (x : String)
    (hno : ∀ p ∈ j.headers_c, lowerStr p.1 ≠ lowerStr x) :
    dictGet (applyCustomHeaders j h) x = dictGet h x := by
  unfold applyCustomHeaders
  by_cases hc : j.headers_c ≠ []
  · rw [if_pos hc]
    exact add_custom_headers_preserves h j.headers_c x hno
  · rw [if_neg hc]

/-- C4 (amended): over the network path, when ignore_cached is unset and
no custom header overrides If-None-Match, a stored etag is emitted as the
If-None-Match request header; a 304 response fails with NotModifiedError
before the etag write, leaving the job state unchanged; a 4xx/5xx status
fails with the HTTP-status error carrying the code (other non-2xx
statuses, such as 3xx, pass raise_for_status and are not failed); any
other response succeeds, overwriting job_state.etag with the response's
ETag header. -/
theorem claim_C4_http_conditional (j : UrlJobModel) (st : JobState) (resp : HttpResponse)
    (now : Nat) (hnf : ¬strStartsWith j.url "file://" = true) :
    (∀ e, st.etag = some e → j.ignore_cached = false →
      (∀ p ∈ j.headers_c, lowerStr p.1 ≠ "if-none-match") →
      dictGet (buildRequestHeaders j st now) "If-None-Match" = some (some e)) ∧
    (resp.status = 304 → urlRetrieve j st resp = .error .notModified) ∧
    (400 ≤ resp.status → resp.status < 600 →
      urlRetrieve j st resp = .error (.httpStatus resp.status)) ∧
    (¬(400 ≤ resp.status ∧ resp.status < 600) → resp.status ≠ 304 →
      ∃ c, urlRetrieve j st resp =
        .ok (.net c { st with etag := respHeaderGet resp "ETag" })) := by
  refine ⟨?_, ?_, ?_, ?_⟩
  · intro e he hic hcust
    unfold buildRequestHeaders
    rw [applyCustomHeaders_preserves j _ _ (by
      intro p hp
      have := hcust p hp
      intro hh
      rw [hh] at this
      exact this (by rfl))]
    rw [applyContentType_preserves j _ _ (by decide)]
    rw [applyIgnoreCached_off j now _ hic]
    rw [applyIfModifiedSince_preserves st _ _ (by decide)]
    exact applyETagHeader_self st _ e he
  · intro h304
    unfold urlRetrieve
    rw [if_neg hnf, if_neg (by omega : ¬(400 ≤ resp.status ∧ resp.status < 600)), if_pos h304]
  · intro hlo hhi
    unfold urlRetrieve
    rw [if_neg hnf, if_pos ⟨hlo, hhi⟩]
  · intro hng h304
    unfold urlRetrieve
    rw [if_neg hnf, if_neg hng, if_neg h304]
    by_cases hcs : charsetDeclared ((respHeaderGet resp "Content-type").getD "") = true
    · rw [if_pos hcs]
      exact ⟨resp.text, rfl⟩
    · rw [if_neg hcs]
      exact ⟨decodeBody resp.content, rfl⟩

theorem claim_C4_http_conditional_w :
    dictGet (buildRequestHeaders jC4 (JobState.mk (some "etag-1") none) 7) "If-None-Match" =
      some (some "etag-1") ∧
    urlRetrieve jC4 (JobState.mk (some "etag-1") none) respC4nm = .error .notModified ∧
    urlRetrieve jC4 (JobState.mk (some "etag-1") none) respC4err =
      .error (.httpStatus 404) ∧
    (∃ c, urlRetrieve jC4 (JobState.mk (some "etag-1") none) respC4ok =
      .ok (.net c { JobState.mk (some "etag-1") none with
        etag := respHeaderGet respC4ok "ETag" })) :=
  ⟨(claim_C4_http_conditional jC4 (JobState.mk (some "etag-1") none) respC4ok 7
      (by decide)).1 "etag-1" rfl rfl (by decide),
   (claim_C4_http_conditional jC4 (JobState.mk (some "etag-1") none) respC4nm 7
      (by decide)).2.1 rfl,
   (claim_C4_http_conditional jC4 (JobState.mk (some "etag-1") none) respC4err 7
      (by decide)).2.2.1 (by decide) (by decide),
   (claim_C4_http_conditional jC4 (JobState.mk (some "etag-1") none) respC4ok 7
      (by decide)).2.2.2 (by decide) (by decide)⟩

/-- C4 counterexample: a 301 response is neither 2xx nor 304, yet retrieve
does not fail with an HTTP-status error — raise_for_status only raises on
4xx/5xx, so the body is returned and the etag overwritten. -/
theorem claim_C4_http_conditional_cex :
    ¬(200 ≤ (301 : Nat) ∧ (301 : Nat) < 300) ∧ (301 : Nat) ≠ 304 ∧
    urlRetrieve jC4 (JobState.mk (some "etag-1") none)
        (HttpResponse.mk 301 [] [] "") =
      .ok (.net "" (JobState.mk none none)) := by
  refine ⟨by decide, by decide, by rfl⟩

/-- C5: for a response without a recognized text content type the body is
decoded through the fallback chain — strict UTF-8 first, its result
returned on success; on a UnicodeDecodeError the Latin-1 decode, which
maps every byte to the same code point and never fails (hence the further
utf-8-with-ignore and ascii fallbacks are unreachable) — and retrieve
returns exactly this decoding on the success path. -/
theorem claim_C5_decode_fallback :
    (∀ b : List (Fin 256),
      (∀ s, utf8Decode b = some s → decodeBody b = s) ∧
      (utf8Decode b = none →
        latin1Decode? b = some (String.mk (b.map (fun x => Char.ofNat x.val))) ∧
        decodeBody b = String.mk (b.map (fun x => Char.ofNat x.val)))) ∧
    (∀ (j : UrlJobModel) (st : JobState) (resp : HttpResponse),
      ¬strStartsWith j.url "file://" = true →
      ¬(400 ≤ resp.status ∧ resp.status < 600) → resp.status ≠ 304 →
      charsetDeclared ((respHeaderGet resp "Content-type").getD "") = false →
      urlRetrieve j st resp =
        .ok (.net (decodeBody resp.content) { st with etag := respHeaderGet resp "ETag" })) := by
  constructor
  · intro b
    constructor
    · intro s hs
      unfold decodeBody
      rw [hs]
    · intro hn
      refine ⟨rfl, ?_⟩
      unfold decodeBody
      rw [hn]
      rfl
  · intro j st resp hf hs h304 hcs
    unfold urlRetrieve
    rw [if_neg hf, if_neg hs, if_neg h304,
      if_neg (by rw [hcs]; exact Bool.false_ne_true)]

theorem claim_C5_decode_fallback_w :
    utf8Decode [(255 : Fin 256)] = none ∧
    decodeBody [(255 : Fin 256)] =
      String.mk ([(255 : Fin 256)].map (fun x => Char.ofNat x.val)) ∧
    urlRetrieve jC5 (JobState.mk none none) respC5 =
      .ok (.net (decodeBody respC5.content)
        { JobState.mk none none with etag := respHeaderGet respC5 "ETag" }) :=
  ⟨by decide,
   ((claim_C5_decode_fallback.1 [(255 : Fin 256)]).2 (by decide)).2,
   claim_C5_decode_fallback.2 jC5 (JobState.mk none none) respC5
     (by decide) (by decide) (by decide) (by decide)⟩

/-- C10: every successful network retrieval overwrites job_state.etag with
the response's ETag header — in particular, when the response carries no
ETag header the stored etag is erased to None — and leaves the timestamp
unchanged. -/
theorem claim_C10_etag_overwrite (j : UrlJobModel) (st : JobState) (resp : HttpResponse)
    (c : String) (st' : JobState)
    (h : urlRetrieve j st resp = .ok (.net c st')) :
    st'.etag = respHeaderGet resp "ETag" ∧ st'.timestamp = st.timestamp := by
  unfold urlRetrieve at h
  by_cases h1 : strStartsWith j.url "file://" = true
  · rw [if_pos h1] at h
    simp at h
  · rw [if_neg h1] at h
    by_cases h2 : 400 ≤ resp.status ∧ resp.status < 600
    · rw [if_pos h2] at h
      cases h
    · rw [if_neg h2] at h
      by_cases h3 : resp.status = 304
      · rw [if_pos h3] at h
        cases h
      · rw [if_neg h3] at h
        by_cases h4 : charsetDeclared ((respHeaderGet resp "Content-type").getD "") = true
        · rw [if_pos h4] at h
          have h5 := Except.ok.inj h
          injection h5 with hc hst
          rw [← hst]
          exact ⟨rfl, rfl⟩
        · rw [if_neg h4] at h
          have h5 := Except.ok.inj h
          injection h5 with hc hst
          rw [← hst]
          exact ⟨rfl, rfl⟩

theorem claim_C10_etag_overwrite_w :
    urlRetrieve jC10 stC10 respC10 = .ok (.net "" (JobState.mk none (some 5))) ∧
    (JobState.mk none (some 5)).etag = respHeaderGet respC10 "ETag" ∧
    (JobState.mk none (some 5)).timestamp = stC10.timestamp :=
  ⟨by rfl,
   claim_C10_etag_overwrite jC10 stC10 respC10 "" (JobState.mk none (some 5)) (by rfl)⟩

set_option maxRecDepth 40000 in
example : sha1Hex (utf8Encode "abc") = "a9993e364706816aba3e25717850c26c9cd0d89d" := by
  rfl

set_option maxRecDepth 40000 in
example : sha1Hex (utf8Encode "") = "da39a3ee5e6b4b0d3255bfef95601890afd80709" := by
  rfl

theorem M32_pos : 0 < M32 := by
  unfold M32
  norm_num

theorem sha1Final_bounded (h fin : H5) : H5Bounded (sha1Final h fin) :=
  ⟨Nat.mod_lt _ M32_pos, Nat.mod_lt _ M32_pos, Nat.mod_lt _ M32_pos,
   Nat.mod_lt _ M32_pos, Nat.mod_lt _ M32_pos⟩

theorem sha1Compress_bounded (h : H5) (block : List Nat) :
    H5Bounded (sha1Compress h block) :=
  sha1Final_bounded _ _

theorem sha1Blocks_bounded (fuel : Nat) (h : H5) (msg : List Nat)
    (hb : H5Bounded h) : H5Bounded (sha1Blocks fuel h msg) := by
  induction fuel generalizing h msg with
  | zero => exact hb
  | succ n ih =>
    cases msg with
    | nil => exact hb
    | cons x rest => exact ih _ _ (sha1Compress_bounded _ _)

theorem sha1InitH_bounded : H5Bounded sha1InitH := by
  refine ⟨?_, ?_, ?_, ?_, ?_⟩ <;> norm_num [sha1InitH, M32]

theorem horner_step_lt (x y A : Nat) (hx : x < A) (hy : y < M32) :
    x * M32 + y < A * M32 := by
  calc x * M32 + y < x * M32 + M32 := by omega
  _ = (x + 1) * M32 := by ring
  _ ≤ A * M32 := Nat.mul_le_mul_right _ hx

theorem sha1DigestNat_lt (msg : List Nat) : sha1DigestNat msg < 2 ^ 160 := by
  have hb : H5Bounded (sha1Hs msg) :=
    sha1Blocks_bounded _ _ _ sha1InitH_bounded
  unfold sha1DigestNat
  rcases hH : sha1Hs msg with ⟨a, b, c, d, e⟩
  rw [hH] at hb
  obtain ⟨ha, hbb, hc, hd, he⟩ := hb
  have h1 : a * M32 + b < M32 * M32 := horner_step_lt _ _ _ ha hbb
  have h2 : (a * M32 + b) * M32 + c < M32 * M32 * M32 := horner_step_lt _ _ _ h1 hc
  have h3 : ((a * M32 + b) * M32 + c) * M32 + d < M32 * M32 * M32 * M32 :=
    horner_step_lt _ _ _ h2 hd
  have h4 : (((a * M32 + b) * M32 + c) * M32 + d) * M32 + e <
      M32 * M32 * M32 * M32 * M32 := horner_step_lt _ _ _ h3 he
  have hM : M32 * M32 * M32 * M32 * M32 = 2 ^ 160 := by norm_num [M32]
  rw [hM] at h4
  exact h4

theorem boolFunToLocation_injective : Function.Injective boolFunToLocation := by
  intro v w h
  unfold boolFunToLocation at h
  have hdata : List.ofFn (fun i => if v i then 'a' else 'b') =
      List.ofFn (fun i => if w i then 'a' else 'b') := congrArg String.data h
  have hfn := List.ofFn_injective hdata
  funext i
  have hi := congrFun hfn i
  cases hv : v i <;> cases hw : w i
  · rfl
  · rw [hv, hw] at hi
    simp at hi
  · rw [hv, hw] at hi
    simp at hi
  · rfl

theorem guidOfLocation_eq_digest (v : Fin 161 → Bool) :
    guidOfLocation (boolFunToLocation v) = natToHexPad 40 (guidDigestOf v) := rfl

set_option maxRecDepth 20000 in
/-- C8 counterexample (to the clause "any change of location changes the
GUID"): the GUID space is the 160-bit SHA-1 digest space, so by counting
— there are more than 2^160 distinct 161-character locations over two
letters — two distinct locations share a GUID. -/
theorem claim_C8_guid_cex :
    ∃ l1 l2 : String, l1 ≠ l2 ∧ guidOfLocation l1 = guidOfLocation l2 := by
  have hc : (Finset.range (2 ^ 160)).card <
      (Finset.univ : Finset (Fin 161 → Bool)).card := by
    rw [Finset.card_range, Finset.card_univ, Fintype.card_fun,
      Fintype.card_bool, Fintype.card_fin]
    exact Nat.pow_lt_pow_right (by norm_num) (by norm_num)
  have hf : ∀ a ∈ (Finset.univ : Finset (Fin 161 → Bool)),
      guidDigestOf a ∈ Finset.range (2 ^ 160) :=
    fun a _ => Finset.mem_range.mpr (sha1DigestNat_lt _)
  obtain ⟨v, hv, w, hw, hvw, heq⟩ :=
    Finset.exists_ne_map_eq_of_card_lt_of_maps_to hc hf
  exact ⟨boolFunToLocation v, boolFunToLocation w,
    fun hh => hvw (boolFunToLocation_injective hh),
    by rw [guidOfLocation_eq_digest, guidOfLocation_eq_digest, heq]⟩

/-- C8 (amended): get_guid is a pure function of get_location — it is the
40-hex-digit SHA-1 hexdigest of the UTF-8 encoded location — hence any
two jobs with equal locations have equal GUIDs. (The original claim's
further clause that any change of location changes the GUID is refuted by
the counterexample: a 160-bit digest is not injective on strings.) -/
theorem claim_C8_guid (reg : List Kind) :
    (∀ j, get_guid reg j = (get_location reg j).map (fun l => guidOfLocation l)) ∧
    (∀ j1 j2, get_location reg j1 = get_location reg j2 →
      get_guid reg j1 = get_guid reg j2) := by
  constructor
  · intro j
    unfold get_guid
    cases get_location reg j with
    | none => rfl
    | some l => rfl
  · intro j1 j2 h
    unfold get_guid
    rw [h]

theorem claim_C8_guid_w :
    get_guid jobsRegistry jG1 =
      (get_location jobsRegistry jG1).map (fun l => guidOfLocation l) ∧
    get_location jobsRegistry jG1 = get_location jobsRegistry jG2 ∧
    get_guid jobsRegistry jG1 = get_guid jobsRegistry jG2 :=
  ⟨(claim_C8_guid jobsRegistry).1 jG1, by decide,
   (claim_C8_guid jobsRegistry).2 jG1 jG2 (by decide)⟩
